import Mathlib

/-!
Shallow embedding of the BudgetBuddy expense tracker (an Express + SQLite
web server with a Chart.js front end) and proofs about its aggregation and
CRUD behaviour.  Amounts are modelled as exact rationals, dates as their
`YYYY-MM-DD` strings (SQLite compares the TEXT column bytewise, which on
these fixed-width ASCII strings agrees with the lexicographic order on
`String`).
-/

namespace BudgetBuddy

/-- An expense record as stored in the `expenses` table
(`id INTEGER PRIMARY KEY AUTOINCREMENT, description TEXT, amount REAL,
category TEXT, date TEXT`). -/
structure Expense where
  id : Nat
  description : String
  amount : ℚ
  category : String
  date : String
deriving Repr, DecidableEq

/-- The category key used by `categoryTotals` in graphs.js:
`const cat = e.category || 'Other'` — an empty (falsy) category folds into
the sentinel label `"Other"`. -/
def foldCat (e : Expense) : String :=
  if e.category = "" then "Other" else e.category

/-- One step of `sums[cat] = (sums[cat] || 0) + Number(e.amount || 0)` on the
association-list model of the JS object `sums`: an existing key is updated in
place, a new key is appended. -/
def addToSums : List (String × ℚ) → String → ℚ → List (String × ℚ)
  | [], c, a => [(c, a)]
  | p :: rest, c, a =>
    if p.1 = c then (p.1, p.2 + a) :: rest else p :: addToSums rest c a

/-- The JS object `sums` built by the `for (const e of expenses)` loop of
`categoryTotals`, keyed by folded category, holding per-category sums, in
key-insertion order. -/
def buildSums (rs : List Expense) : List (String × ℚ) :=
  rs.foldl (fun s e => addToSums s (foldCat e) e.amount) []

/-- Numeric value of a decimal digit string. -/
def digitsToNat (cs : List Char) : Nat :=
  cs.foldl (fun n c => n * 10 + (c.toNat - 48)) 0

/-- A canonical decimal numeral: a nonempty digit string without a leading
zero (except the numeral `"0"` itself). -/
def isCanonicalNumeral : List Char → Bool
  | [] => false
  | [c] => c.isDigit
  | c :: rest => c.isDigit && c != '0' && rest.all Char.isDigit

/-- Whether a JS property name is an array index (a canonical decimal
numeral below 2^32 - 1); such keys are enumerated by `Object.entries`
before all other keys, in ascending numeric order. -/
def isArrayIndex (s : String) : Bool :=
  isCanonicalNumeral s.toList && decide (digitsToNat s.toList < 4294967295)

/-- Numeric value of an array-index key. -/
def keyNum (s : String) : Nat := digitsToNat s.toList

/-- `Object.entries` enumeration order on the model of a JS object:
array-index keys first in ascending numeric order, then the remaining keys
in insertion order. -/
def objectEntries (m : List (String × ℚ)) : List (String × ℚ) :=
  List.insertionSort (fun p q => keyNum p.1 ≤ keyNum q.1)
      (m.filter (fun p => isArrayIndex p.1))
    ++ m.filter (fun p => !isArrayIndex p.1)

/-- `categoryTotals` of graphs.js:
`Object.entries(sums).sort((a,b) => b[1] - a[1])` — the entries of the sums
object, stably sorted by total descending (JS `Array.prototype.sort` is
stable, and any stable sort by this comparator is the stable
insertion sort by `p.2 ≥ q.2`). -/
def categoryTotals (rs : List Expense) : List (String × ℚ) :=
  List.insertionSort (fun p q => q.2 ≤ p.2) (objectEntries (buildSums rs))

/-- The distinct elements of a list in order of first occurrence (the key
insertion order of the JS object built by the `categoryTotals` loop). -/
def firstDedup (l : List String) : List String :=
  l.foldl (fun ks c => if c ∈ ks then ks else ks ++ [c]) []

/-- Lookup in the association-list model of a JS object, defaulting to 0
(`sums[cat] || 0`). -/
def lookupD : List (String × ℚ) → String → ℚ
  | [], _ => 0
  | p :: rest, c => if p.1 = c then p.2 else lookupD rest c

/-- Sum of the amounts of the records whose folded category is `c`. -/
def catSum (rs : List Expense) (c : String) : ℚ :=
  ((rs.filter (fun e => foldCat e = c)).map Expense.amount).sum

/-- Month index (year * 12 + zero-based month) of a `YYYY-MM-DD` date
string, as computed by `new Date(e.date)` plus `getFullYear`/`getMonth` in
graphs.js `monthlyTotals` (in a UTC environment, where the local getters
agree with the parsed date string). -/
def dateMonthIdx (d : String) : ℤ :=
  (digitsToNat (d.toList.take 4) : ℤ) * 12
    + (digitsToNat ((d.toList.drop 5).take 2) : ℤ) - 1

/-- The bucket keys created by the first loop of `monthlyTotals`
(`for (let i = monthsBack - 1; i >= 0; i--)`): the `monthsBack` consecutive
month indices ending at the reference month `ref`, oldest first. -/
def monthKeys (ref : ℤ) (monthsBack : ℕ) : List ℤ :=
  (List.range monthsBack).map
    (fun j : ℕ => ref - (monthsBack - 1 : ℤ) + (j : ℤ))

/-- `if (key in map) map[key] += Number(e.amount || 0)` on the
association-list model of the JS object `map`: entries with the matching
key are updated in place, anything else (a key not in the map) is
ignored. -/
def addIfPresent (m : List (ℤ × ℚ)) (k : ℤ) (a : ℚ) : List (ℤ × ℚ) :=
  m.map (fun p => if p.1 = k then (p.1, p.2 + a) else p)

/-- `monthlyTotals` of graphs.js with the ambient current month
(`new Date()`) made an explicit parameter `ref` (its month index).  Returns
the bucket label keys and the bucket values, in bucket order.  The
presentation-only `toLocaleString` prettification of the labels is not
modelled; labels are the `(year, month)` keys themselves. -/
def monthlyTotals (rs : List Expense) (monthsBack : ℕ) (ref : ℤ) :
    List ℤ × List ℚ :=
  ((rs.foldl (fun acc e => addIfPresent acc (dateMonthIdx e.date) e.amount)
      ((monthKeys ref monthsBack).map (fun k => (k, (0 : ℚ))))).map Prod.fst,
   (rs.foldl (fun acc e => addIfPresent acc (dateMonthIdx e.date) e.amount)
      ((monthKeys ref monthsBack).map (fun k => (k, (0 : ℚ))))).map Prod.snd)

/-- Sum of the amounts of the records whose date lies in month bucket
`k`. -/
def monthSum (rs : List Expense) (k : ℤ) : ℚ :=
  ((rs.filter (fun e => dateMonthIdx e.date = k)).map Expense.amount).sum

/-- The three records of the spec's concrete scenario. -/
def demoRecords : List Expense :=
  [⟨1, "Groceries", 49/2, "Food", "2025-07-10"⟩,
   ⟨2, "Bus ticket", 11/4, "Transport", "2025-07-11"⟩,
   ⟨3, "Electricity bill", 60, "Utilities", "2025-07-05"⟩]

/-- Lexicographic strict order on character lists, comparing code points:
the order SQLite's BINARY collation induces on (ASCII) TEXT values. -/
def charListLt : List Char → List Char → Bool
  | [], [] => false
  | [], _ :: _ => true
  | _ :: _, [] => false
  | a :: as, b :: bs =>
    if a < b then true else if b < a then false else charListLt as bs

/-- Strict bytewise order on strings (SQLite BINARY collation on ASCII
text such as `YYYY-MM-DD` dates). -/
def strLt (a b : String) : Bool := charListLt a.toList b.toList

/-- Non-strict bytewise order on strings. -/
def strLe (a b : String) : Bool := !strLt b a

/-- `totalBetween` of the `/api/chatbot` handler:
`SELECT SUM(amount) as s FROM expenses WHERE date >= ? AND date <= ?`,
with a NULL sum (no matching rows) reported as `0`
(`row && row.s ? Number(row.s) : 0`).  SQLite compares the TEXT dates
bytewise (`strLe`). -/
def totalBetween (rs : List Expense) (start finish : String) : ℚ :=
  ((rs.filter (fun r => strLe start r.date && strLe r.date finish)).map
    Expense.amount).sum

/-- Stable descending sort by amount, modelling
`SELECT * FROM expenses ORDER BY amount DESC`: rows are emitted by amount
descending with ties left in table (rowid/insertion) order, the order of
the input list. -/
def topSort (rs : List Expense) : List Expense :=
  List.insertionSort (fun a b => b.amount ≤ a.amount) rs

/-- The `top N` query of the `/api/chat` handler:
`SELECT * FROM expenses ORDER BY amount DESC LIMIT ?` with parameter `n`
(the handler derives `n` from the digits of the message, capped at 50, so
`n` is a natural number). -/
def topN (rs : List Expense) (n : ℕ) : List Expense :=
  (topSort rs).take n

/-- A record tied on amount with `topB` but with the older date and the
smaller id. -/
def topA : Expense := ⟨1, "old", 5, "Food", "2025-01-01"⟩

/-- See `topA`. -/
def topB : Expense := ⟨2, "new", 5, "Food", "2025-12-31"⟩

/-- Position of the first occurrence of `c` in `l`. -/
def posIn : List String → String → Nat
  | [], _ => 0
  | d :: rest, c => if d = c then 0 else posIn rest c + 1

/-- ASCII whitespace for the model of JS `String.prototype.trim`. -/
def isWhite (c : Char) : Bool :=
  c == ' ' || c == '\t' || c == '\n' || c == '\r'

/-- JS `.trim()`: strip leading and trailing whitespace. -/
def jsTrim (s : String) : String :=
  String.mk ((((s.toList.dropWhile isWhite).reverse).dropWhile
    isWhite).reverse)

/-- A request payload as read by the REST handlers (`req.body`): the four
client-supplied fields; a missing or non-numeric (NaN) amount is `none`. -/
structure Payload where
  description : String
  amount : Option ℚ
  category : String
  date : String
deriving Repr, DecidableEq

/-- The `^\d{4}-\d{2}-\d{2}$` test of `validateExpense`. -/
def isDateFormat (s : String) : Bool :=
  match s.toList with
  | [a, b, c, d, '-', e, f, '-', g, h] =>
    a.isDigit && b.isDigit && c.isDigit && d.isDigit
      && e.isDigit && f.isDigit && g.isDigit && h.isDigit
  | _ => false

/-- `validateExpense` of the server: the error message of the first failing
check (description, then amount, then category, then date), or `none` for a
valid payload. -/
def validateExpense (p : Payload) : Option String :=
  if jsTrim p.description = "" then some "Description required"
  else
    match p.amount with
    | none => some "Amount must be a positive number"
    | some a =>
      if a ≤ 0 then some "Amount must be a positive number"
      else if jsTrim p.category = "" then some "Category required"
      else if !isDateFormat p.date then some "Date required (YYYY-MM-DD)"
      else none

/-- The `expenses` table: its rows (in rowid order) and the next
AUTOINCREMENT id. -/
structure Store where
  records : List Expense
  nextId : ℕ
deriving Repr, DecidableEq

/-- Error responses of the REST handlers. -/
inductive ApiError where
  | badRequest : String → ApiError
  | notFound : String → ApiError
deriving Repr, DecidableEq

/-- The field replacement performed by the PUT handler's UPDATE statement:
`SET description = ?, amount = ?, category = ?, date = ?` with the trimmed
description and category and the numeric amount; the id column is not
assigned. -/
def applyPut (r : Expense) (p : Payload) : Expense :=
  { r with
    description := jsTrim p.description
    amount := p.amount.getD 0
    category := jsTrim p.category
    date := p.date }

/-- The row INSERTed by the validated POST/PUT path: the trimmed
description and category, the numeric amount, the date as given, under the
fresh id `idn`. -/
def newExpense (idn : ℕ) (p : Payload) : Expense :=
  ⟨idn, jsTrim p.description, p.amount.getD 0, jsTrim p.category, p.date⟩

/-- The POST /api/expenses handler: validate, then
`INSERT INTO expenses(description,amount,category,date)` with a fresh
autoincrement id, returning the stored row. -/
def postExpense (st : Store) (p : Payload) :
    Except ApiError (Store × Expense) :=
  match validateExpense p with
  | some m => Except.error (ApiError.badRequest m)
  | none =>
    Except.ok
      ({ records := st.records ++ [newExpense st.nextId p],
         nextId := st.nextId + 1 },
       newExpense st.nextId p)

/-- The PUT /api/expenses/:id handler: reject id 0/NaN (falsy), validate
the payload, run the UPDATE (which rewrites every row whose id matches —
at most one, since id is the primary key), report 404 when no row was
changed, and otherwise return the re-SELECTed row. -/
def updateRecords (l : List Expense) (idn : ℕ) (p : Payload) :
    List Expense :=
  l.map (fun r => if r.id = idn then applyPut r p else r)

def putExpense (st : Store) (idn : ℕ) (p : Payload) :
    Except ApiError (Store × Expense) :=
  if idn = 0 then Except.error (ApiError.badRequest "Invalid id")
  else
    match validateExpense p with
    | some m => Except.error (ApiError.badRequest m)
    | none =>
      if st.records.any (fun r => r.id = idn) then
        match (updateRecords st.records idn p).find?
            (fun r => r.id = idn) with
        | some row =>
          Except.ok ({ st with records := updateRecords st.records idn p },
            row)
        | none => Except.error (ApiError.notFound "Expense not found")
      else Except.error (ApiError.notFound "Expense not found")

/-- The DELETE /api/expenses/:id handler: reject id 0/NaN, run the DELETE,
report 404 when no row was deleted, else `{ success: true }`. -/
def deleteExpense (st : Store) (idn : ℕ) : Except ApiError Store :=
  if idn = 0 then Except.error (ApiError.badRequest "Invalid id")
  else if st.records.any (fun r => r.id = idn) then
    Except.ok { st with records := st.records.filter (fun r => r.id != idn) }
  else Except.error (ApiError.notFound "Expense not found")

/-- Split a character list at every `'.'` (the model of JS
`Number()`-relevant structure of the `([\d\.]+)` amount group). -/
def splitOnDot : List Char → List (List Char)
  | [] => [[]]
  | c :: rest =>
    if c = '.' then [] :: splitOnDot rest
    else
      match splitOnDot rest with
      | [] => [[c]]
      | g :: gs => (c :: g) :: gs

/-- JS `Number()` on a string drawn from the `([\d\.]+)` amount group of
the chatbot add-expense command: digits with at most one decimal point
parse to the decimal value; anything else in that character class
(e.g. "1.2.3" or ".") is NaN, modelled as `none`. -/
def parseAmount (s : String) : Option ℚ :=
  match splitOnDot s.toList with
  | [i] =>
    if !i.isEmpty && i.all Char.isDigit then some (digitsToNat i : ℚ)
    else none
  | [i, f] =>
    if (!i.isEmpty || !f.isEmpty) && i.all Char.isDigit
        && f.all Char.isDigit then
      some ((digitsToNat i : ℚ) + (digitsToNat f : ℚ) / 10 ^ f.length)
    else none
  | _ => none

/-- Shape of the strings matched by the `([\d\.]+)` amount group of the
chatbot add-expense command. -/
def amountGroupShape (s : String) : Bool :=
  !s.toList.isEmpty && s.toList.all (fun c => c.isDigit || c == '.')

/-- The add-expense command of the `/api/chatbot` handler: on a message
matched by
`add expense[,:\s]+(.+?),\s*([\d\.]+),\s*([a-zA-Z ]+),\s*(\d{4}-\d{2}-\d{2})`
it INSERTs the captured groups directly — without calling
`validateExpense` — with `amount = Number(group2)`, the description and
category trimmed, and the date as captured.  A NaN amount (which SQLite
would reject as a NOT NULL violation, erroring the insert) leaves the
store unchanged. -/
def chatbotAddExpense (st : Store)
    (description amtStr category date : String) : Store :=
  match parseAmount amtStr with
  | some a =>
    { records :=
        st.records ++ [⟨st.nextId, jsTrim description, a, jsTrim category, date⟩],
      nextId := st.nextId + 1 }
  | none => st

/-- The data-model invariant of the spec: every stored amount is strictly
positive. -/
def amountsPositive (st : Store) : Prop := ∀ r ∈ st.records, 0 < r.amount

instance (st : Store) : Decidable (amountsPositive st) := by
  unfold amountsPositive
  infer_instance

/-- A valid replacement payload used in concrete examples. -/
def demoPayload : Payload := ⟨"Coffee", some 3, "Food", "2025-08-09"⟩

/-- The optional query filters of GET /api/expenses; `none` models an
absent (or empty-string, hence falsy and ignored) query parameter. -/
structure ListQuery where
  category : Option String
  start : Option String
  finish : Option String
deriving Repr, DecidableEq

/-- The WHERE clause assembled by GET /api/expenses:
`category = ?` (exact, case-sensitive BINARY comparison), `date >= ?`,
`date <= ?`, for whichever parameters are present. -/
def matchesQuery (q : ListQuery) (r : Expense) : Bool :=
  (match q.category with
    | some c => r.category = c
    | none => true)
    && (match q.start with
    | some s0 => strLe s0 r.date
    | none => true)
    && (match q.finish with
    | some e0 => strLe r.date e0
    | none => true)

/-- `ORDER BY date DESC, id DESC` as a relation: `a` comes no later than
`b` when `a`'s date is larger, or the dates are equal and `a`'s id is at
least `b`'s. -/
def listOrder (a b : Expense) : Prop :=
  strLt b.date a.date = true ∨ (a.date = b.date ∧ b.id ≤ a.id)

instance : DecidableRel listOrder := fun a b => by
  unfold listOrder
  infer_instance

/-- GET /api/expenses: `SELECT * FROM expenses [WHERE ...] ORDER BY date
DESC, id DESC` — the stored rows matching the filters, sorted by date
descending then id descending. -/
def listExpenses (st : Store) (q : ListQuery) : List Expense :=
  List.insertionSort listOrder (st.records.filter (matchesQuery q))

/-- Two records with equal amounts whose category labels are canonical
numeric strings (valid free-form category text). -/
def tieA : Expense := ⟨1, "a", 1, "10", "2025-01-01"⟩

/-- See `tieA`. -/
def tieB : Expense := ⟨2, "b", 1, "2", "2025-01-02"⟩

end BudgetBuddy

namespace BudgetBuddy

lemma addToSums_snd_sum (m : List (String × ℚ)) (c : String) (a : ℚ) :
    ((addToSums m c a).map Prod.snd).sum = (m.map Prod.snd).sum + a := by
  induction m with
  | nil => simp [addToSums]
  | cons p rest ih =>
    by_cases h : p.1 = c <;> simp [addToSums, h, ih] <;> ring

lemma foldl_sums_sum (rs : List Expense) :
    ∀ m : List (String × ℚ),
      (((rs.foldl (fun s e => addToSums s (foldCat e) e.amount) m).map
          Prod.snd).sum)
        = (m.map Prod.snd).sum + ((rs.map Expense.amount).sum) := by
  induction rs with
  | nil => intro m; simp
  | cons e rest ih =>
    intro m
    simp only [List.foldl_cons, List.map_cons, List.sum_cons]
    rw [ih, addToSums_snd_sum]
    ring

lemma objectEntries_perm (m : List (String × ℚ)) :
    (objectEntries m).Perm m := by
  unfold objectEntries
  refine List.Perm.trans
    (List.Perm.append_right _ (List.perm_insertionSort _ _)) ?_
  exact List.filter_append_perm _ m

lemma categoryTotals_perm (rs : List Expense) :
    (categoryTotals rs).Perm (buildSums rs) := by
  unfold categoryTotals
  exact List.Perm.trans (List.perm_insertionSort _ _) (objectEntries_perm _)

/-- C1: for every list of expense records, the sum of the per-category
totals returned by `categoryTotals` (the groupByCategory of the spec)
equals the sum of the amounts of all records (conservation of total). -/
theorem categoryTotals_conservation (rs : List Expense) :
    ((categoryTotals rs).map Prod.snd).sum = (rs.map Expense.amount).sum := by
  have hperm := (categoryTotals_perm rs).map Prod.snd
  rw [hperm.sum_eq]
  simpa using foldl_sums_sum rs []

lemma orderedInsert_pairwise_key {α : Type} (k : α → ℚ) (s : α → α → Prop)
    (a : α) (m : List α)
    (hm : m.Pairwise (fun x y => k y < k x ∨ (k x = k y ∧ s x y)))
    (ha : ∀ b ∈ m, k a = k b → s a b) :
    (m.orderedInsert (fun x y => k y ≤ k x) a).Pairwise
      (fun x y => k y < k x ∨ (k x = k y ∧ s x y)) := by
  induction m with
  | nil => simp
  | cons b m ih =>
    have hb := (List.pairwise_cons.mp hm).1
    have hm' := (List.pairwise_cons.mp hm).2
    by_cases hr : k b ≤ k a
    · rw [List.orderedInsert, if_pos hr]
      refine List.pairwise_cons.mpr ⟨?_, hm⟩
      intro x hx
      rcases List.mem_cons.mp hx with h | h
      · subst h
        rcases lt_or_eq_of_le hr with h2 | h2
        · exact Or.inl h2
        · exact Or.inr ⟨h2.symm, ha x (List.mem_cons_self _ _) h2.symm⟩
      · rcases hb x h with hlt | ⟨heq, _⟩
        · exact Or.inl (lt_of_lt_of_le hlt hr)
        · rcases lt_or_eq_of_le hr with h2 | h2
          · exact Or.inl (heq ▸ h2)
          · have hax : k a = k x := h2.symm.trans heq
            exact Or.inr ⟨hax, ha x (List.mem_cons_of_mem _ h) hax⟩
    · rw [List.orderedInsert, if_neg hr]
      refine List.pairwise_cons.mpr ⟨?_, ?_⟩
      · intro x hx
        rcases (List.mem_orderedInsert _).mp hx with h | h
        · subst h
          exact Or.inl (not_le.mp hr)
        · exact hb x h
      · exact ih hm' (fun c hc => ha c (List.mem_cons_of_mem _ hc))

lemma insertionSort_pairwise_key {α : Type} (k : α → ℚ) (s : α → α → Prop)
    (l : List α) (hl : l.Pairwise (fun x y => k x = k y → s x y)) :
    (List.insertionSort (fun x y => k y ≤ k x) l).Pairwise
      (fun x y => k y < k x ∨ (k x = k y ∧ s x y)) := by
  induction l with
  | nil => simp
  | cons a l ih =>
    rw [List.insertionSort]
    have h1 := (List.pairwise_cons.mp hl).1
    have h2 := (List.pairwise_cons.mp hl).2
    refine orderedInsert_pairwise_key k s a _ (ih h2) ?_
    intro b hb heq
    exact h1 b ((List.mem_insertionSort _).mp hb) heq

lemma addToSums_fst (m : List (String × ℚ)) (c : String) (a : ℚ) :
    (addToSums m c a).map Prod.fst =
      if c ∈ m.map Prod.fst then m.map Prod.fst
      else m.map Prod.fst ++ [c] := by
  induction m with
  | nil => simp [addToSums]
  | cons p rest ih =>
    by_cases h : p.1 = c
    · simp [addToSums, h]
    · by_cases hm : c ∈ rest.map Prod.fst <;>
        simp [addToSums, h, ih, hm, Ne.symm h]

lemma foldl_sums_fst (rs : List Expense) :
    ∀ m : List (String × ℚ),
      (rs.foldl (fun s e => addToSums s (foldCat e) e.amount) m).map Prod.fst
        = (rs.map foldCat).foldl
            (fun ks c => if c ∈ ks then ks else ks ++ [c])
            (m.map Prod.fst) := by
  induction rs with
  | nil => intro m; simp
  | cons e rest ih =>
    intro m
    simp only [List.foldl_cons, List.map_cons]
    rw [ih, addToSums_fst]

lemma buildSums_fst (rs : List Expense) :
    (buildSums rs).map Prod.fst = firstDedup (rs.map foldCat) := by
  simpa [buildSums, firstDedup] using foldl_sums_fst rs []

lemma foldl_dedup_nodup (l : List String) :
    ∀ ks : List String, ks.Nodup →
      (l.foldl (fun ks c => if c ∈ ks then ks else ks ++ [c]) ks).Nodup := by
  induction l with
  | nil => intro ks h; simpa using h
  | cons c rest ih =>
    intro ks h
    simp only [List.foldl_cons]
    by_cases hc : c ∈ ks
    · rw [if_pos hc]; exact ih ks h
    · rw [if_neg hc]
      refine ih _ ?_
      simp [List.nodup_append, h, hc]

lemma firstDedup_nodup (l : List String) : (firstDedup l).Nodup :=
  foldl_dedup_nodup l [] List.nodup_nil

lemma foldl_dedup_mem (l : List String) :
    ∀ (ks : List String) (c : String),
      c ∈ l.foldl (fun ks c => if c ∈ ks then ks else ks ++ [c]) ks
        ↔ c ∈ ks ∨ c ∈ l := by
  induction l with
  | nil => intro ks c; simp
  | cons d rest ih =>
    intro ks c
    simp only [List.foldl_cons]
    by_cases hd : d ∈ ks
    · rw [if_pos hd, ih]
      constructor
      · rintro (h | h)
        · exact Or.inl h
        · exact Or.inr (List.mem_cons_of_mem _ h)
      · rintro (h | h)
        · exact Or.inl h
        · rcases List.mem_cons.mp h with h2 | h2
          · exact Or.inl (h2 ▸ hd)
          · exact Or.inr h2
    · rw [if_neg hd, ih]
      simp only [List.mem_append, List.mem_cons, List.mem_singleton]
      tauto

lemma mem_firstDedup (l : List String) (c : String) :
    c ∈ firstDedup l ↔ c ∈ l := by
  rw [firstDedup, foldl_dedup_mem]
  simp

lemma lookupD_addToSums (m : List (String × ℚ)) (c d : String) (a : ℚ) :
    lookupD (addToSums m c a) d
      = lookupD m d + if d = c then a else 0 := by
  induction m with
  | nil =>
    simp only [addToSums, lookupD]
    by_cases h : c = d
    · subst h; simp
    · rw [if_neg h, if_neg (fun hh => h hh.symm)]; simp
  | cons p rest ih =>
    by_cases hp : p.1 = c
    · by_cases hd : p.1 = d
      · have hdc : d = c := by rw [← hd, hp]
        simp [addToSums, lookupD, hp, hd, hdc, add_comm]
      · have hdc : ¬d = c := fun h => hd (hp.trans h.symm)
        have hcd : ¬c = d := fun h => hdc h.symm
        simp [addToSums, lookupD, hp, hd, hdc, hcd]
    · by_cases hd : p.1 = d
      · have hdc : ¬d = c := fun h => hp (hd.trans h)
        simp [addToSums, lookupD, hp, hd, hdc]
      · simp [addToSums, lookupD, hp, hd, ih]

lemma catSum_cons (e : Expense) (rest : List Expense) (d : String) :
    catSum (e :: rest) d
      = (if d = foldCat e then e.amount else 0) + catSum rest d := by
  by_cases h : foldCat e = d
  · rw [if_pos h.symm]
    simp [catSum, h]
  · rw [if_neg (fun hh => h hh.symm)]
    simp [catSum, h]

lemma lookupD_foldl (rs : List Expense) :
    ∀ (m : List (String × ℚ)) (d : String),
      lookupD (rs.foldl (fun s e => addToSums s (foldCat e) e.amount) m) d
        = lookupD m d + catSum rs d := by
  induction rs with
  | nil => intro m d; simp [catSum]
  | cons e rest ih =>
    intro m d
    simp only [List.foldl_cons]
    rw [ih, lookupD_addToSums, catSum_cons]
    ring

lemma lookupD_buildSums (rs : List Expense) (d : String) :
    lookupD (buildSums rs) d = catSum rs d := by
  simpa [buildSums, lookupD] using lookupD_foldl rs [] d

lemma snd_eq_lookupD (m : List (String × ℚ))
    (hnd : (m.map Prod.fst).Nodup) :
    ∀ p ∈ m, p.2 = lookupD m p.1 := by
  induction m with
  | nil => intro p hp; cases hp
  | cons q rest ih =>
    intro p hp
    have hq1 : q.1 ∉ rest.map Prod.fst :=
      (List.nodup_cons.mp (by simpa using hnd)).1
    have hnd' : (rest.map Prod.fst).Nodup :=
      (List.nodup_cons.mp (by simpa using hnd)).2
    rcases List.mem_cons.mp hp with h | h
    · subst h; simp [lookupD]
    · have hne : ¬q.1 = p.1 := by
        intro he
        exact hq1 (he ▸ List.mem_map_of_mem Prod.fst h)
      simp only [lookupD, if_neg hne]
      exact ih hnd' p h

lemma pairwise_posIn (m : List (String × ℚ)) (K : List String)
    (hK : m.map Prod.fst = K) (hnd : K.Nodup) :
    m.Pairwise (fun p q => posIn K p.1 < posIn K q.1) := by
  induction m generalizing K with
  | nil => exact List.Pairwise.nil
  | cons p rest ih =>
    subst hK
    simp only [List.map_cons] at hnd
    have h1 : p.1 ∉ rest.map Prod.fst := (List.nodup_cons.mp hnd).1
    have h2 : (rest.map Prod.fst).Nodup := (List.nodup_cons.mp hnd).2
    refine List.pairwise_cons.mpr ⟨?_, ?_⟩
    · intro q hq
      have hqm : q.1 ∈ rest.map Prod.fst := List.mem_map_of_mem _ hq
      have hne : ¬p.1 = q.1 := fun h => h1 (h ▸ hqm)
      simp only [posIn, if_pos rfl, if_neg hne]
      exact Nat.succ_pos _
    · refine (ih (rest.map Prod.fst) rfl h2).imp_of_mem ?_
      intro a b ha hb hab
      have hnea : ¬p.1 = a.1 :=
        fun h => h1 (h ▸ List.mem_map_of_mem Prod.fst ha)
      have hneb : ¬p.1 = b.1 :=
        fun h => h1 (h ▸ List.mem_map_of_mem Prod.fst hb)
      simpa only [posIn, if_neg hnea, if_neg hneb] using
        Nat.succ_lt_succ hab

lemma objectEntries_of_no_index (m : List (String × ℚ))
    (h : ∀ p ∈ m, isArrayIndex p.1 = false) : objectEntries m = m := by
  unfold objectEntries
  have h1 : m.filter (fun p => isArrayIndex p.1) = [] := by
    rw [List.filter_eq_nil_iff]
    intro p hp
    simp [h p hp]
  have h2 : m.filter (fun p => !isArrayIndex p.1) = m := by
    rw [List.filter_eq_self]
    intro p hp
    simp [h p hp]
  rw [h1, h2]
  simp

lemma buildSums_no_index (rs : List Expense)
    (hno : ∀ e ∈ rs, isArrayIndex (foldCat e) = false) :
    ∀ p ∈ buildSums rs, isArrayIndex p.1 = false := by
  intro p hp
  have h1 : p.1 ∈ firstDedup (rs.map foldCat) :=
    buildSums_fst rs ▸ List.mem_map_of_mem Prod.fst hp
  have h2 : p.1 ∈ rs.map foldCat := (mem_firstDedup _ _).mp h1
  obtain ⟨e, he, hef⟩ := List.mem_map.mp h2
  exact hef ▸ hno e he

/-- C2 (amended): `categoryTotals` returns exactly one (category, total)
pair per distinct category value, with an empty category folded into
`"Other"` (via `foldCat`), each total being the sum of the amounts of that
category's records; the pairs are ordered by total descending and — provided
no folded category label is a canonical numeric string (a JS array-index
key, which `Object.entries` would enumerate first in numeric order ahead of
insertion order) — ties are kept in first-encountered category order; the
empty input yields the empty sequence rather than an error. -/
theorem categoryTotals_grouping (rs : List Expense)
    (hno : ∀ e ∈ rs, isArrayIndex (foldCat e) = false) :
    ((categoryTotals rs).map Prod.fst).Nodup
    ∧ (∀ c, c ∈ (categoryTotals rs).map Prod.fst ↔ c ∈ rs.map foldCat)
    ∧ (∀ p ∈ categoryTotals rs, p.2 = catSum rs p.1)
    ∧ (categoryTotals rs).Pairwise (fun p q =>
        q.2 < p.2 ∨ (p.2 = q.2 ∧
          posIn (firstDedup (rs.map foldCat)) p.1
            < posIn (firstDedup (rs.map foldCat)) q.1))
    ∧ (rs = [] → categoryTotals rs = []) := by
  have hkeys : (buildSums rs).map Prod.fst = firstDedup (rs.map foldCat) :=
    buildSums_fst rs
  have hnd : (firstDedup (rs.map foldCat)).Nodup := firstDedup_nodup _
  have hndk : ((buildSums rs).map Prod.fst).Nodup := hkeys ▸ hnd
  have hOE : objectEntries (buildSums rs) = buildSums rs :=
    objectEntries_of_no_index _ (buildSums_no_index rs hno)
  have hperm := categoryTotals_perm rs
  refine ⟨?_, ?_, ?_, ?_, ?_⟩
  · exact ((hperm.map Prod.fst).nodup_iff).mpr hndk
  · intro c
    rw [(hperm.map Prod.fst).mem_iff, hkeys, mem_firstDedup]
  · intro p hp
    have hp' : p ∈ buildSums rs := hperm.mem_iff.mp hp
    rw [snd_eq_lookupD (buildSums rs) hndk p hp', lookupD_buildSums]
  · have hpw := pairwise_posIn (buildSums rs)
      (firstDedup (rs.map foldCat)) hkeys hnd
    have hl : (buildSums rs).Pairwise (fun p q =>
        Prod.snd p = Prod.snd q →
          posIn (firstDedup (rs.map foldCat)) p.1
            < posIn (firstDedup (rs.map foldCat)) q.1) :=
      hpw.imp (fun h => fun _ => h)
    have := insertionSort_pairwise_key Prod.snd
      (fun p q => posIn (firstDedup (rs.map foldCat)) p.1
        < posIn (firstDedup (rs.map foldCat)) q.1)
      (buildSums rs) hl
    unfold categoryTotals
    rw [hOE]
    exact this
  · intro h
    subst h
    rfl

/-- C2 counterexample: with two equal-amount records whose category labels
are the numeric strings "10" (first encountered) and "2", `categoryTotals`
returns the tied pairs as [("2", 1), ("10", 1)] — numeric-string keys are
enumerated by `Object.entries` in ascending numeric order, not
first-encountered order, so the claimed tie-breaking fails. -/
theorem categoryTotals_tie_counterexample :
    [tieA, tieB].map foldCat = ["10", "2"]
    ∧ tieA.amount = tieB.amount
    ∧ categoryTotals [tieA, tieB] = [("2", 1), ("10", 1)] := by
  decide

/-- Witness for `categoryTotals_grouping` at the spec's concrete scenario. -/
theorem categoryTotals_grouping_witness :
    ((categoryTotals demoRecords).map Prod.fst).Nodup
    ∧ ("Food" ∈ (categoryTotals demoRecords).map Prod.fst
        ↔ "Food" ∈ demoRecords.map foldCat) :=
  ⟨(categoryTotals_grouping demoRecords (by decide)).1,
   (categoryTotals_grouping demoRecords (by decide)).2.1 "Food"⟩

lemma monthSum_cons (e : Expense) (rest : List Expense) (k : ℤ) :
    monthSum (e :: rest) k
      = (if dateMonthIdx e.date = k then e.amount else 0)
        + monthSum rest k := by
  by_cases h : dateMonthIdx e.date = k
  · simp [monthSum, h]
  · simp [monthSum, h]

lemma foldl_addIfPresent (rs : List Expense) :
    ∀ m : List (ℤ × ℚ),
      rs.foldl
          (fun acc e => addIfPresent acc (dateMonthIdx e.date) e.amount) m
        = m.map (fun p => (p.1, p.2 + monthSum rs p.1)) := by
  induction rs with
  | nil =>
    intro m
    have h0 : ∀ k : ℤ, monthSum [] k = 0 := fun _ => rfl
    simp only [List.foldl_nil, h0, add_zero]
    rw [show (fun p : ℤ × ℚ => (p.1, p.2)) = id from funext (fun _ => rfl),
      List.map_id]
  | cons e rest ih =>
    intro m
    simp only [List.foldl_cons]
    rw [ih]
    unfold addIfPresent
    rw [List.map_map]
    have hfun : ∀ p : ℤ × ℚ,
        (fun q : ℤ × ℚ => (q.1, q.2 + monthSum rest q.1))
            (if p.1 = dateMonthIdx e.date then (p.1, p.2 + e.amount) else p)
          = (p.1, p.2 + monthSum (e :: rest) p.1) := by
      intro p
      by_cases h : p.1 = dateMonthIdx e.date
      · rw [if_pos h, monthSum_cons, if_pos h.symm]
        dsimp only
        rw [add_assoc]
      · rw [if_neg h, monthSum_cons, if_neg (fun hh => h hh.symm)]
        dsimp only
        rw [zero_add]
    exact congrArg (fun f => List.map f m) (funext hfun)

lemma monthlyTotals_fst (rs : List Expense) (mb : ℕ) (ref : ℤ) :
    (monthlyTotals rs mb ref).1 = monthKeys ref mb := by
  unfold monthlyTotals
  dsimp only
  rw [foldl_addIfPresent, List.map_map, List.map_map]
  rw [show ((Prod.fst ∘ fun p : ℤ × ℚ => (p.1, p.2 + monthSum rs p.1)) ∘
      fun k : ℤ => (k, (0 : ℚ))) = id from funext (fun _ => rfl)]
  exact List.map_id _

lemma monthlyTotals_snd (rs : List Expense) (mb : ℕ) (ref : ℤ) :
    (monthlyTotals rs mb ref).2
      = (monthKeys ref mb).map (fun k => monthSum rs k) := by
  unfold monthlyTotals
  dsimp only
  rw [foldl_addIfPresent, List.map_map, List.map_map]
  congr 1
  funext k
  simp [Function.comp]

/-- C3: for every record list, `monthsBack` and reference month,
`monthlyTotals` returns label and value sequences both of length exactly
`monthsBack`; the labels are the `monthsBack` consecutive calendar months
ending at the month of the reference date, oldest first; and the value of
bucket `j` is the sum of the amounts of exactly the records whose
(year, month) equals that bucket's month — hence a bucket with no matching
records is exactly `0`, and records whose month falls outside the window
are ignored rather than causing an error. -/
theorem monthlyTotals_buckets (rs : List Expense) (mb : ℕ) (ref : ℤ) :
    (monthlyTotals rs mb ref).1.length = mb
    ∧ (monthlyTotals rs mb ref).2.length = mb
    ∧ (∀ j, j < mb → (monthlyTotals rs mb ref).1[j]?
        = some (ref - (mb - 1 : ℤ) + j))
    ∧ (∀ j, j < mb → (monthlyTotals rs mb ref).2[j]?
        = some (monthSum rs (ref - (mb - 1 : ℤ) + j)))
    ∧ (∀ j, j < mb →
        rs.filter (fun e => dateMonthIdx e.date = ref - (mb - 1 : ℤ) + j)
          = [] →
        (monthlyTotals rs mb ref).2[j]? = some 0) := by
  have hkey : ∀ j, j < mb → (monthKeys ref mb)[j]?
      = some (ref - (mb - 1 : ℤ) + j) := by
    intro j hj
    rw [monthKeys, List.getElem?_map, List.getElem?_range hj]
    rfl
  refine ⟨?_, ?_, ?_, ?_, ?_⟩
  · rw [monthlyTotals_fst, monthKeys, List.length_map, List.length_range]
  · rw [monthlyTotals_snd, List.length_map, monthKeys, List.length_map,
      List.length_range]
  · intro j hj
    rw [monthlyTotals_fst]
    exact hkey j hj
  · intro j hj
    rw [monthlyTotals_snd, List.getElem?_map, hkey j hj]
    rfl
  · intro j hj hempty
    have h0 : monthSum rs (ref - (mb - 1 : ℤ) + j) = 0 := by
      rw [monthSum, hempty]
      rfl
    rw [monthlyTotals_snd, List.getElem?_map, hkey j hj]
    show some (monthSum rs (ref - (mb - 1 : ℤ) + j)) = some 0
    rw [h0]

lemma monthSum_demo : monthSum demoRecords 24306 = 349/4 := by
  have h1 : dateMonthIdx "2025-07-10" = 24306 := by decide
  have h2 : dateMonthIdx "2025-07-11" = 24306 := by decide
  have h3 : dateMonthIdx "2025-07-05" = 24306 := by decide
  simp [monthSum, demoRecords, List.filter, h1, h2, h3]
  norm_num

/-- Witness for `monthlyTotals_buckets`: the spec scenario — one bucket for
July 2025 (month index 24306) holding the total of all three records. -/
theorem monthlyTotals_buckets_witness :
    (monthlyTotals demoRecords 1 24306).1.length = 1
    ∧ (monthlyTotals demoRecords 1 24306).2[0]?
        = some (monthSum demoRecords (24306 - (1 - 1 : ℤ) + 0))
    ∧ monthSum demoRecords (24306 - (1 - 1 : ℤ) + 0) = 349/4 := by
  refine ⟨(monthlyTotals_buckets demoRecords 1 24306).1, ?_, ?_⟩
  · exact (monthlyTotals_buckets demoRecords 1 24306).2.2.2.1 0 (by decide)
  · rw [show (24306 - (1 - 1 : ℤ) + 0 : ℤ) = 24306 by decide]
    exact monthSum_demo

lemma charListLt_irrefl : ∀ as, charListLt as as = false
  | [] => rfl
  | a :: as => by simp [charListLt, charListLt_irrefl as]

lemma charListLt_trans : ∀ as bs cs, charListLt as bs = true →
    charListLt bs cs = true → charListLt as cs = true
  | [], [], _, h1, _ => by cases h1
  | [], _ :: _, [], _, h2 => by cases h2
  | [], _ :: _, _ :: _, _, _ => rfl
  | _ :: _, [], _, h1, _ => by cases h1
  | _ :: _, _ :: _, [], _, h2 => by cases h2
  | a :: as, b :: bs, c :: cs, h1, h2 => by
    simp only [charListLt] at h1 h2 ⊢
    by_cases hab : a < b
    · by_cases hbc : b < c
      · rw [if_pos (lt_trans hab hbc)]
      · by_cases hcb : c < b
        · rw [if_neg hbc, if_pos hcb] at h2
          cases h2
        · have hbceq : b = c := le_antisymm (not_lt.mp hcb) (not_lt.mp hbc)
          rw [if_pos (hbceq ▸ hab)]
    · by_cases hba : b < a
      · rw [if_neg hab, if_pos hba] at h1
        cases h1
      · have habeq : a = b := le_antisymm (not_lt.mp hba) (not_lt.mp hab)
        rw [if_neg hab, if_neg hba] at h1
        by_cases hbc : b < c
        · rw [if_pos (habeq ▸ hbc)]
        · by_cases hcb : c < b
          · rw [if_neg hbc, if_pos hcb] at h2
            cases h2
          · have hbceq : b = c := le_antisymm (not_lt.mp hcb) (not_lt.mp hbc)
            rw [if_neg hbc, if_neg hcb] at h2
            have hac : ¬a < c := hbceq ▸ habeq ▸ lt_irrefl a
            have hca : ¬c < a := hbceq ▸ habeq ▸ lt_irrefl a
            rw [if_neg hac, if_neg hca]
            exact charListLt_trans as bs cs h1 h2

lemma charListLt_eq_of_not (as bs : List Char)
    (h1 : charListLt as bs = false) (h2 : charListLt bs as = false) :
    as = bs := by
  induction as generalizing bs with
  | nil =>
    cases bs with
    | nil => rfl
    | cons b bs => cases h1
  | cons a as ih =>
    cases bs with
    | nil => cases h2
    | cons b bs =>
      simp only [charListLt] at h1 h2
      by_cases hab : a < b
      · rw [if_pos hab] at h1
        cases h1
      · by_cases hba : b < a
        · rw [if_pos hba] at h2
          cases h2
        · have habeq : a = b := le_antisymm (not_lt.mp hba) (not_lt.mp hab)
          rw [if_neg hab, if_neg hba] at h1
          rw [if_neg hba, if_neg hab] at h2
          rw [habeq, ih bs h1 h2]

lemma string_toList_inj {a b : String} (h : a.toList = b.toList) :
    a = b := by
  cases a
  cases b
  exact congrArg String.mk h

lemma strLe_refl (a : String) : strLe a a = true := by
  rw [strLe, strLt, charListLt_irrefl]
  rfl

lemma strLe_antisymm {a b : String} (h1 : strLe a b = true)
    (h2 : strLe b a = true) : a = b := by
  rw [strLe, Bool.not_eq_true', strLt] at h1 h2
  exact string_toList_inj (charListLt_eq_of_not _ _ h2 h1)

lemma strLe_total (a b : String) : strLe a b = true ∨ strLe b a = true := by
  rw [strLe, strLe, Bool.not_eq_true', Bool.not_eq_true']
  cases hab : strLt b a
  · exact Or.inl rfl
  · cases hba : strLt a b
    · exact Or.inr rfl
    · rw [strLt] at hab hba
      have := charListLt_trans _ _ _ hab hba
      rw [charListLt_irrefl] at this
      cases this

lemma strLe_trans {a b c : String} (h1 : strLe a b = true)
    (h2 : strLe b c = true) : strLe a c = true := by
  rw [strLe, Bool.not_eq_true', strLt] at h1 h2 ⊢
  cases hca : charListLt c.toList a.toList
  · rfl
  · cases hbc : charListLt b.toList c.toList
    · have heq : b.toList = c.toList := charListLt_eq_of_not _ _ hbc h2
      rw [← heq] at hca
      rw [hca] at h1
      cases h1
    · have hba := charListLt_trans _ _ _ hbc hca
      rw [hba] at h1
      cases h1

lemma strLt_asymm {a b : String} (h : strLt a b = true) :
    strLt b a = false := by
  cases hc : strLt b a
  · rfl
  · rw [strLt] at h hc
    have := charListLt_trans _ _ _ h hc
    rw [charListLt_irrefl] at this
    cases this

lemma strLt_or_eq_of_not_lt {a b : String} (h : strLt b a = false) :
    strLt a b = true ∨ a = b := by
  cases hab : strLt a b
  · rw [strLt] at hab h
    exact Or.inr (string_toList_inj (charListLt_eq_of_not _ _ hab h))
  · exact Or.inl rfl

/-- C4: `totalBetween` returns the sum of the amounts of the records whose
date lies in the inclusive range `[start, finish]` under the lexicographic
order on the fixed-width `YYYY-MM-DD` form; a single-day range `[d, d]`
collapses to the exact-day filter; and an empty match yields `0`, not an
error. -/
theorem totalBetween_range (rs : List Expense) (s e d : String) :
    totalBetween rs s e
        = ((rs.filter (fun r => strLe s r.date && strLe r.date e)).map
            Expense.amount).sum
    ∧ totalBetween rs d d
        = ((rs.filter (fun r => r.date = d)).map Expense.amount).sum
    ∧ (rs.filter (fun r => strLe s r.date && strLe r.date e) = [] →
        totalBetween rs s e = 0) := by
  refine ⟨rfl, ?_, ?_⟩
  · unfold totalBetween
    have hcongr : ∀ r ∈ rs,
        (strLe d r.date && strLe r.date d) = decide (r.date = d) := by
      intro r _
      by_cases h : r.date = d
      · simp [h, strLe_refl]
      · rw [decide_eq_false h]
        cases hx : strLe d r.date
        · rfl
        · cases hy : strLe r.date d
          · rfl
          · exact absurd (strLe_antisymm hy hx) h
    rw [List.filter_congr hcongr]
  · intro h
    unfold totalBetween
    rw [h]
    rfl

/-- Witness for `totalBetween_range`: a range after all demo dates matches
nothing and totals 0. -/
theorem totalBetween_range_witness :
    demoRecords.filter
        (fun r => strLe "2026-01-01" r.date && strLe r.date "2026-12-31")
      = []
    ∧ totalBetween demoRecords "2026-01-01" "2026-12-31" = 0 :=
  ⟨by decide,
   (totalBetween_range demoRecords "2026-01-01" "2026-12-31"
      "2026-01-01").2.2 (by decide)⟩

/-- C5 counterexample: two records tied on amount, where the record with
the more recent date was inserted second; the `top` query
(`ORDER BY amount DESC`, no date in the ordering) returns them in
insertion order, not most-recent-date-first as claimed. -/
theorem topN_tie_counterexample :
    topA.amount = topB.amount
    ∧ strLt topA.date topB.date = true
    ∧ topN [topA, topB] 2 = [topA, topB] := by
  decide

/-- C5 (amended): for every record list (in rowid/id order, as produced by
a table scan) and every n, `topN` returns the first min(n, |records|)
records of the stable descending-by-amount sort of the records: ordered by
amount descending, with ties between equal amounts kept in insertion/id
order — there is no tie-break by date. -/
theorem topN_spec (rs : List Expense) (n : ℕ)
    (hid : rs.Pairwise (fun a b => a.id < b.id)) :
    (topN rs n).length = min n rs.length
    ∧ (topSort rs).Perm rs
    ∧ (topSort rs).Pairwise (fun a b =>
        b.amount < a.amount ∨ (a.amount = b.amount ∧ a.id < b.id))
    ∧ topN rs n = (topSort rs).take n := by
  refine ⟨?_, ?_, ?_, rfl⟩
  · unfold topN topSort
    rw [List.length_take, List.length_insertionSort]
  · exact List.perm_insertionSort _ _
  · have hl : rs.Pairwise (fun a b =>
        Expense.amount a = Expense.amount b → a.id < b.id) :=
      hid.imp (fun h => fun _ => h)
    exact insertionSort_pairwise_key Expense.amount
      (fun a b => a.id < b.id) rs hl

/-- Witness for `topN_spec` on two records in id order. -/
theorem topN_spec_witness :
    (topN [topA, topB] 1).length = min 1 2 :=
  (topN_spec [topA, topB] 1 (by decide)).1

/-- C6: `topN` with n = 0 (the only value of n ≤ 0 the handler's
digit-parsing can produce; SQLite receives a nonnegative LIMIT) returns
the empty sequence, and `topN` with n at least the number of records
returns the full stable descending sort of the records. -/
theorem topN_bounds (rs : List Expense) :
    (∀ n : ℕ, n ≤ 0 → topN rs n = [])
    ∧ (∀ n : ℕ, rs.length ≤ n → topN rs n = topSort rs) := by
  constructor
  · intro n hn
    rw [Nat.le_zero.mp hn]
    rfl
  · intro n hn
    unfold topN
    apply List.take_of_length_le
    unfold topSort
    rw [List.length_insertionSort]
    exact hn

/-- Witness for `topN_bounds`. -/
theorem topN_bounds_witness :
    topN [topA, topB] 0 = [] ∧ topN [topA, topB] 5 = topSort [topA, topB] :=
  ⟨(topN_bounds [topA, topB]).1 0 (by decide),
   (topN_bounds [topA, topB]).2 5 (by decide)⟩

/-- C7 (refuted on the code): the chatbot add-expense path inserts without
running `validateExpense`.  The amount string "0" lies in the command's
`([\d\.]+)` character class and `Number("0") = 0`, so the insert stores a
record with amount 0: a store satisfying the positivity invariant stops
satisfying it, even though `validateExpense` on the same fields rejects
the payload as non-positive. -/
theorem chatbotAdd_violates_invariant :
    amountGroupShape "0" = true
    ∧ validateExpense ⟨"lunch", parseAmount "0", "food", "2025-08-09"⟩
        = some "Amount must be a positive number"
    ∧ amountsPositive ⟨[], 1⟩
    ∧ ¬amountsPositive
        (chatbotAddExpense ⟨[], 1⟩ "lunch" "0" "food" "2025-08-09") := by
  refine ⟨by decide, by decide, by decide, by decide⟩

lemma map_update_id (idn : ℕ) (p : Payload) :
    ∀ l : List Expense, (∀ r ∈ l, ¬r.id = idn) →
      updateRecords l idn p = l := by
  intro l
  induction l with
  | nil => intro _; rfl
  | cons x l ih =>
    intro hall
    unfold updateRecords at ih ⊢
    rw [List.map_cons, if_neg (hall x (List.mem_cons_self x l)),
      ih (fun y hy => hall y (List.mem_cons_of_mem x hy))]

lemma updateRecords_of_notFound (l : List Expense) (idn : ℕ) (p : Payload)
    (h : l.find? (fun r => decide (r.id = idn)) = none) :
    updateRecords l idn p = l := by
  refine map_update_id idn p l (fun r hr => ?_)
  have := List.find?_eq_none.mp h r hr
  simpa using this

lemma filter_of_notFound (l : List Expense) (idn : ℕ)
    (h : l.find? (fun r => decide (r.id = idn)) = none) :
    l.filter (fun r => r.id != idn) = l := by
  rw [List.filter_eq_self]
  intro r hr
  have := List.find?_eq_none.mp h r hr
  simpa using this

lemma find?_updateRecords (l : List Expense) (idn : ℕ) (p : Payload)
    (r : Expense)
    (hfind : l.find? (fun q => decide (q.id = idn)) = some r) :
    (updateRecords l idn p).find? (fun q => decide (q.id = idn))
      = some (applyPut r p) := by
  induction l with
  | nil => cases hfind
  | cons x l ih =>
    unfold updateRecords at *
    by_cases hx : x.id = idn
    · rw [List.find?_cons_of_pos _ (by simpa using hx)] at hfind
      injection hfind with h
      subst h
      rw [List.map_cons, if_pos hx,
        List.find?_cons_of_pos _ (by simpa [applyPut] using hx)]
    · rw [List.find?_cons_of_neg _ (by simpa using hx)] at hfind
      rw [List.map_cons, if_neg hx,
        List.find?_cons_of_neg _ (by simpa using hx)]
      exact ih hfind

lemma any_eq_false_of_find?_none (l : List Expense) (idn : ℕ)
    (h : l.find? (fun r => decide (r.id = idn)) = none) :
    l.any (fun r => decide (r.id = idn)) = false := by
  have hall := List.find?_eq_none.mp h
  rw [List.any_eq_false]
  intro r hr
  simpa using hall r hr

lemma any_eq_true_of_find?_some (l : List Expense) (idn : ℕ) (r : Expense)
    (h : l.find? (fun q => decide (q.id = idn)) = some r) :
    l.any (fun q => decide (q.id = idn)) = true := by
  have hp := List.find?_some h
  rw [List.any_eq_true]
  exact ⟨r, List.mem_of_find?_eq_some h, hp⟩

/-- C8: for an id identifying no record (and a valid nonzero id and
payload, so the earlier 400 checks pass), PUT and DELETE both answer
NotFound ("Expense not found") and the store is untouched — the UPDATE
rewrites no row and the DELETE removes none; for an id identifying a
record, PUT answers the updated row and DELETE succeeds. -/
theorem updateDelete_byId (st : Store) (idn : ℕ) (p : Payload)
    (hidn : idn ≠ 0) (hval : validateExpense p = none) :
    (st.records.find? (fun r => decide (r.id = idn)) = none →
      putExpense st idn p
          = Except.error (ApiError.notFound "Expense not found")
      ∧ deleteExpense st idn
          = Except.error (ApiError.notFound "Expense not found")
      ∧ updateRecords st.records idn p = st.records
      ∧ st.records.filter (fun r => r.id != idn) = st.records)
    ∧ (∀ r, st.records.find? (fun q => decide (q.id = idn)) = some r →
      putExpense st idn p
          = Except.ok ({ st with records := updateRecords st.records idn p },
              applyPut r p)
      ∧ deleteExpense st idn
          = Except.ok { st with
              records := st.records.filter (fun q => q.id != idn) }) := by
  constructor
  · intro hnone
    have hany := any_eq_false_of_find?_none st.records idn hnone
    refine ⟨?_, ?_, updateRecords_of_notFound _ _ _ hnone,
      filter_of_notFound _ _ hnone⟩
    · simp only [putExpense, if_neg hidn, hval, hany]
      rfl
    · simp only [deleteExpense, if_neg hidn, hany]
      rfl
  · intro r hfind
    have hany := any_eq_true_of_find?_some st.records idn r hfind
    constructor
    · simp only [putExpense, if_neg hidn, hval, hany, if_pos trivial]
      rw [find?_updateRecords st.records idn p r hfind]
    · simp only [deleteExpense, if_neg hidn, hany, if_pos trivial]

/-- Witness for `updateDelete_byId`: id 9 identifies nothing in the demo
store, so both PUT and DELETE answer NotFound. -/
theorem updateDelete_byId_witness :
    putExpense ⟨demoRecords, 4⟩ 9 ⟨"Coffee", some 3, "Food", "2025-08-09"⟩
        = Except.error (ApiError.notFound "Expense not found")
    ∧ deleteExpense ⟨demoRecords, 4⟩ 9
        = Except.error (ApiError.notFound "Expense not found") := by
  have h := (updateDelete_byId ⟨demoRecords, 4⟩ 9
    ⟨"Coffee", some 3, "Food", "2025-08-09"⟩ (by decide) (by decide)).1
    (by rfl)
  exact ⟨h.1, h.2.1⟩

/-- C9: a successful PUT on id `idn` preserves the autoincrement counter
and the record count, leaves every record whose id differs from `idn`
unchanged (same position, same fields), and replaces exactly the
description, amount, category and date of the record with id `idn`,
keeping its id. -/
theorem putExpense_frame (st : Store) (idn : ℕ) (p : Payload)
    (st2 : Store) (row : Expense)
    (hok : putExpense st idn p = Except.ok (st2, row)) :
    st2.nextId = st.nextId
    ∧ st2.records.length = st.records.length
    ∧ (∀ (i : ℕ) (r0 : Expense), st.records[i]? = some r0 →
        (r0.id ≠ idn → st2.records[i]? = some r0)
        ∧ (r0.id = idn →
            st2.records[i]? = some (applyPut r0 p)
            ∧ (applyPut r0 p).id = r0.id
            ∧ (applyPut r0 p).description = jsTrim p.description
            ∧ (applyPut r0 p).amount = p.amount.getD 0
            ∧ (applyPut r0 p).category = jsTrim p.category
            ∧ (applyPut r0 p).date = p.date)) := by
  unfold putExpense at hok
  split at hok
  · cases hok
  · split at hok
    · cases hok
    · split at hok
      · split at hok
        · injection hok with h
          injection h with ha hb
          have hrec : st2.records = updateRecords st.records idn p := by
            rw [← ha]
          have hnext : st2.nextId = st.nextId := by
            rw [← ha]
          refine ⟨hnext, ?_, ?_⟩
          · rw [hrec]
            unfold updateRecords
            exact List.length_map _ _
          · intro i r0 hi
            have hmap : st2.records[i]?
                = some (if r0.id = idn then applyPut r0 p else r0) := by
              rw [hrec]
              unfold updateRecords
              rw [List.getElem?_map, hi]
              rfl
            constructor
            · intro hne
              rw [hmap, if_neg hne]
            · intro heq
              rw [hmap, if_pos heq]
              exact ⟨rfl, rfl, rfl, rfl, rfl, rfl⟩
        · cases hok
      · cases hok

/-- Witness for `putExpense_frame`: updating record 1 of the demo store
leaves the record at position 1 (id 2) unchanged. -/
theorem putExpense_frame_witness :
    ∃ st2 row,
      putExpense ⟨demoRecords, 4⟩ 1 demoPayload = Except.ok (st2, row)
      ∧ st2.records[1]?
          = some ⟨2, "Bus ticket", 11/4, "Transport", "2025-07-11"⟩ := by
  refine ⟨⟨updateRecords demoRecords 1 demoPayload, 4⟩,
    applyPut ⟨1, "Groceries", 49/2, "Food", "2025-07-10"⟩ demoPayload,
    rfl, ?_⟩
  have h := (putExpense_frame ⟨demoRecords, 4⟩ 1 demoPayload _ _ rfl).2.2 1
    ⟨2, "Bus ticket", 11/4, "Transport", "2025-07-11"⟩ rfl
  exact h.1 (by decide)

lemma strLt_trans {a b c : String} (h1 : strLt a b = true)
    (h2 : strLt b c = true) : strLt a c = true :=
  charListLt_trans _ _ _ h1 h2

instance : IsTotal Expense listOrder :=
  ⟨by
    intro a b
    cases hab : strLt b.date a.date
    · rcases strLt_or_eq_of_not_lt hab with h | h
      · exact Or.inr (Or.inl h)
      · rcases Nat.le_total b.id a.id with hi | hi
        · exact Or.inl (Or.inr ⟨h, hi⟩)
        · exact Or.inr (Or.inr ⟨h.symm, hi⟩)
    · exact Or.inl (Or.inl hab)⟩

instance : IsTrans Expense listOrder :=
  ⟨by
    intro a b c hab hbc
    rcases hab with h1 | ⟨e1, i1⟩
    · rcases hbc with h2 | ⟨e2, i2⟩
      · exact Or.inl (strLt_trans h2 h1)
      · exact Or.inl (e2 ▸ h1)
    · rcases hbc with h2 | ⟨e2, i2⟩
      · exact Or.inl (e1 ▸ h2)
      · exact Or.inr ⟨e1.trans e2, le_trans i2 i1⟩⟩

lemma matchesQuery_iff (q : ListQuery) (r : Expense) :
    matchesQuery q r = true ↔
      ((∀ c, q.category = some c → r.category = c)
        ∧ (∀ s0, q.start = some s0 → strLe s0 r.date = true)
        ∧ (∀ e0, q.finish = some e0 → strLe r.date e0 = true)) := by
  rcases q with ⟨qc, qs, qe⟩
  unfold matchesQuery
  cases qc <;> cases qs <;> cases qe <;> simp [and_assoc]

/-- C10: the list endpoint returns exactly the stored records matching the
given optional filters — category compared exactly (case-sensitively,
SQLite BINARY `=`), date within the inclusive `[start, end]` range — and
the result is sorted by date descending with ties on equal dates broken by
id descending. -/
theorem listExpenses_spec (st : Store) (q : ListQuery) :
    (listExpenses st q).Perm (st.records.filter (matchesQuery q))
    ∧ (listExpenses st q).Pairwise listOrder
    ∧ (∀ r, r ∈ listExpenses st q ↔
        (r ∈ st.records
          ∧ (∀ c, q.category = some c → r.category = c)
          ∧ (∀ s0, q.start = some s0 → strLe s0 r.date = true)
          ∧ (∀ e0, q.finish = some e0 → strLe r.date e0 = true))) := by
  refine ⟨List.perm_insertionSort _ _, List.sorted_insertionSort _ _, ?_⟩
  intro r
  rw [listExpenses]
  rw [List.mem_insertionSort, List.mem_filter, matchesQuery_iff]

/-- Witness for `listExpenses_spec` on the demo store filtered to the Food
category. -/
theorem listExpenses_spec_witness :
    (listExpenses ⟨demoRecords, 4⟩ ⟨some "Food", none, none⟩).Perm
      (demoRecords.filter (matchesQuery ⟨some "Food", none, none⟩))
    ∧ (listExpenses ⟨demoRecords, 4⟩ ⟨some "Food", none, none⟩).Pairwise
        listOrder :=
  ⟨(listExpenses_spec ⟨demoRecords, 4⟩ ⟨some "Food", none, none⟩).1,
   (listExpenses_spec ⟨demoRecords, 4⟩ ⟨some "Food", none, none⟩).2.1⟩

end BudgetBuddy
